import Mathlib

/-!
Shallow embedding of the context-store and pruning engine of the `ask` CLI
(`internal/context/store.go`, `internal/context/manager.go`,
`internal/context/pruner.go`), together with theorems settling the frozen
claims about its specification.

Conventions of the embedding:
* Go strings are Lean `String`s; Go `len(s)` (a byte count) is
  `String.utf8ByteSize`.
* Go `time.Time` values are `Int` nanosecond instants; `time.Since(t)` at
  instant `now` is `now - t`; `time.Duration(d) * 24 * time.Hour` is
  `d * 24 * 3600 * 1000000000` nanoseconds.
* Go `int` arithmetic is `Int` (no overflow is reachable at the magnitudes
  involved); all divisions in the source have non-negative operands, where
  Go's truncated division agrees with `Int` division.
* A Go function that can return a non-nil `error`, or panic, returns a sum
  type marking those outcomes explicitly.
-/

/-- Source `Message` from `store.go`: one conversation turn. -/
structure Message where
  role : String
  content : String
  timestamp : Int
  deriving DecidableEq, Repr

/-- Source `AnalysisCache` from `store.go`: cached directory analysis. -/
structure AnalysisCache where
  fileTree : String
  readmeContent : String
  primaryConfigs : List String
  deriving DecidableEq, Repr

/-- Source `Metadata` from `store.go`: conversation statistics. -/
structure Metadata where
  totalMessages : Nat
  totalTokensEstimate : Nat
  pruneCount : Nat
  deriving DecidableEq, Repr

/-- Source `Store` from `store.go`, restricted to the fields the pruning engine
reads or writes (directory identity and wall-clock bookkeeping fields are
irrelevant to every claim). -/
structure Store where
  messages : List Message
  analysisCache : Option AnalysisCache
  lastAnalysisAt : Option Int
  metadata : Metadata
  deriving DecidableEq, Repr

/-- The per-message summand of `Store.EstimateTokens`: `len(msg.Content) / 4`. -/
def messageTokens (m : Message) : Nat :=
  m.content.utf8ByteSize / 4

/-- The accumulation loop of `Store.EstimateTokens` over a message list. -/
def tokensOfMessages (msgs : List Message) : Nat :=
  msgs.foldl (fun total m => total + messageTokens m) 0

/-- Source `Store.EstimateTokens` from `store.go`: sums `len(content)/4` over the
messages; the analysis cache contributes nothing. -/
def Store.estimateTokens (s : Store) : Nat :=
  tokensOfMessages s.messages

/-- Source `Store.AddMessage` from `store.go`: appends the message verbatim and
refreshes the metadata counters. -/
def Store.addMessage (s : Store) (role content : String) (now : Int) : Store :=
  let msgs := s.messages ++ [⟨role, content, now⟩]
  { s with
    messages := msgs
    metadata :=
      { s.metadata with
        totalMessages := msgs.length
        totalTokensEstimate := tokensOfMessages msgs } }

/-- Source `Store.Reset` from `store.go`: clears messages and analysis, keeps the
prune counter. -/
def Store.reset (s : Store) : Store :=
  { s with
    messages := []
    analysisCache := none
    lastAnalysisAt := none
    metadata :=
      { totalMessages := 0
        totalTokensEstimate := 0
        pruneCount := s.metadata.pruneCount } }

/-- The cache-clearing step of `Manager.checkEmergencyPrune` in `manager.go`:
`m.store.AnalysisCache = nil; m.store.LastAnalysisAt = nil`. -/
def Store.clearAnalysis (s : Store) : Store :=
  { s with analysisCache := none, lastAnalysisAt := none }

/-- Source `AnalyzeDirectory` from `analyzer.go`, as it mutates the store:
`store.AnalysisCache = cache; store.LastAnalysisAt = &now` (the directory
walk that produces `cache` is I/O and is taken as a parameter). -/
def Store.setAnalysis (s : Store) (cache : AnalysisCache) (now : Int) : Store :=
  { s with analysisCache := some cache, lastAnalysisAt := some now }

/-- Source `Manager.estimateAnalysisCacheTokens` from `manager.go`:
`int(float64(len(FileTree))/3.5) + int(float64(len(Readme))/3.5) + 2*len(configs)`.
For every byte count `n` occurring here (`n < 2^49`), `float64` holds `n`
exactly, `3.5` exactly, and the rounding error of the division is below the
`1/7` gap between `2n/7` and the nearest other integer, so the Go truncation
`int(float64(n)/3.5)` equals `2 * n / 7` in exact arithmetic. -/
def cacheTokens (c : AnalysisCache) : Nat :=
  2 * c.fileTree.utf8ByteSize / 7 + 2 * c.readmeContent.utf8ByteSize / 7 +
    2 * c.primaryConfigs.length

/-- Source `PruningLimits` from `pruner.go`. -/
structure PruningLimits where
  maxMessages : Int
  maxTokens : Int
  maxAgeDays : Int
  softMaxMessages : Int
  softMaxTokens : Int
  targetMessages : Int
  targetTokens : Int
  deriving DecidableEq, Repr

/-- Source `DefaultPruningLimits` from `pruner.go`. -/
def defaultPruningLimits : PruningLimits :=
  { maxMessages := 100
    maxTokens := 25000
    maxAgeDays := 30
    softMaxMessages := 40
    softMaxTokens := 15000
    targetMessages := 24
    targetTokens := 10000 }

/-- The age guard of `Pruner.ShouldPrune`: with at least one message,
`time.Since(oldest) > Duration(MaxAgeDays)*24*Hour`. -/
def ageExceeded (lim : PruningLimits) (msgs : List Message) (now : Int) : Bool :=
  match msgs with
  | [] => false
  | m :: _ => now - m.timestamp > lim.maxAgeDays * 24 * 3600 * 1000000000

/-- Source `Pruner.ShouldPrune` from `pruner.go`: hard message ceiling, hard token
ceiling, hard age ceiling, soft message threshold, soft token threshold, in
that order. -/
def shouldPrune (lim : PruningLimits) (s : Store) (now : Int) : Bool × String :=
  if (s.messages.length : Int) ≥ lim.maxMessages then
    (true, "hard limit: messages")
  else if (s.estimateTokens : Int) ≥ lim.maxTokens then
    (true, "hard limit: tokens")
  else if ageExceeded lim s.messages now then
    (true, "hard limit: age")
  else if (s.messages.length : Int) ≥ lim.softMaxMessages then
    (true, "soft limit: messages")
  else if (s.estimateTokens : Int) ≥ lim.softMaxTokens then
    (true, "soft limit: tokens")
  else
    (false, "")

/-- Source `Pruner.canUseAIPruning` from `pruner.go`. -/
def canUseAIPruning (lim : PruningLimits) (s : Store) : Bool :=
  if s.messages.length < 10 then false
  else if (s.messages.length : Int) ≥ lim.maxMessages then false
  else if (s.estimateTokens : Int) ≥ lim.maxTokens then false
  else true

/-- Count of the contiguous run of leading `system`-role messages: the
`startIdx` loop of `Pruner.pruneHard`. -/
def leadingSystemCount : List Message → Nat
  | [] => 0
  | m :: rest => if m.role = "system" then leadingSystemCount rest + 1 else 0

/-- Outcome of a Go pruning call: returned with nil error and store state
`s`, returned a non-nil error (store untouched), or panicked. -/
inductive PruneResult where
  | ok (s : Store)
  | fail
  | panic
  deriving DecidableEq, Repr

/-- The `toRemove` local of `Pruner.pruneHard`:
`toRemove := len - TargetMessages`, then capped to `len - 4` when it is at
least `len - 4` ("keep last 4 messages minimum"). -/
def hardToRemove (lim : PruningLimits) (len : Int) : Int :=
  if len - lim.targetMessages ≥ len - 4 then len - 4
  else len - lim.targetMessages

/-- The new message list built by `Pruner.pruneHard`:
`preserved = Messages[startIdx+toRemove:]` where `startIdx` skips the
leading run of `system`-role messages. -/
def hardPreserved (lim : PruningLimits) (msgs : List Message) : List Message :=
  msgs.drop (leadingSystemCount msgs + (hardToRemove lim msgs.length).toNat)

/-- Source `Pruner.pruneHard` from `pruner.go`. `Messages[startIdx+toRemove:]`
panics in Go when the index exceeds the slice length, which the embedding
marks as `.panic`. -/
def pruneHard (lim : PruningLimits) (s : Store) : PruneResult :=
  if (s.messages.length : Int) ≤ lim.targetMessages then .ok s
  else if hardToRemove lim s.messages.length ≤ 0 then .ok s
  else if (leadingSystemCount s.messages : Int) +
      hardToRemove lim s.messages.length > (s.messages.length : Int) then .panic
  else
    .ok { s with
          messages := hardPreserved lim s.messages
          metadata :=
            { totalMessages := (hardPreserved lim s.messages).length
              totalTokensEstimate := tokensOfMessages (hardPreserved lim s.messages)
              pruneCount := s.metadata.pruneCount + 1 } }

/-- Predicate `strStarts pat l`: holds when `pat` is an initial segment of `l`
(`strings.HasPrefix` on rune lists). -/
def strStarts : List Char → List Char → Bool
  | [], _ => true
  | _ :: _, [] => false
  | a :: as, b :: bs => a == b && strStarts as bs

/-- Scan for `pat` at every position of the second list. -/
def strFind (pat : List Char) : List Char → Bool
  | [] => strStarts pat []
  | c :: rest => strStarts pat (c :: rest) || strFind pat rest

/-- Go `strings.Contains s pat`: `pat` occurs as a contiguous substring of `s`.
On valid UTF-8, Go's byte-level containment coincides with this
character-level containment (UTF-8 is self-synchronizing). -/
def strContains (s pat : String) : Bool :=
  strFind pat.data s.data

/-- Go `strings.TrimSpace` on a rune list. -/
def trimChars (l : List Char) : List Char :=
  ((l.dropWhile Char.isWhitespace).reverse.dropWhile Char.isWhitespace).reverse

/-- Go `strings.TrimPrefix` on rune lists. -/
def stripLead (pat l : List Char) : List Char :=
  if strStarts pat l then l.drop pat.length else l

/-- Go `strings.TrimSuffix` on rune lists. -/
def stripTail (pat l : List Char) : List Char :=
  if strStarts pat.reverse l.reverse then l.reverse.drop pat.length |>.reverse else l

/-- JSON inter-token whitespace (`encoding/json`): space, tab, LF, CR. -/
def jsonWs (c : Char) : Bool :=
  c == ' ' || c == '\t' || c == '\n' || c == '\r'

/-- Accumulate a run of decimal digits. -/
def takeDigits : List Char → Nat → Nat × List Char
  | [], acc => (acc, [])
  | c :: rest, acc =>
    if c.isDigit then takeDigits rest (acc * 10 + (c.toNat - 48)) else (acc, c :: rest)

/-- After the digits of a JSON number destined for a Go `int`: a fraction or
exponent part makes `json.Unmarshal` into `[]int` fail. -/
def numberContinues : List Char → Bool
  | [] => false
  | c :: _ => c == '.' || c == 'e' || c == 'E'

/-- Parse one non-negative JSON integer literal (no leading zeros, no
fraction/exponent — those fail Go's decode into `int`). -/
def parseNatTok : List Char → Option (Nat × List Char)
  | [] => none
  | c :: rest =>
    if c == '0' then
      if numberContinues rest || (rest.headD ' ').isDigit then none else some (0, rest)
    else if c.isDigit then
      let (n, r) := takeDigits rest (c.toNat - 48)
      if numberContinues r then none else some (n, r)
    else none

/-- Parse one JSON integer literal with optional sign. -/
def parseIntTok : List Char → Option (Int × List Char)
  | '-' :: rest => (parseNatTok rest).map fun p => (-(p.1 : Int), p.2)
  | l => (parseNatTok l).map fun p => ((p.1 : Int), p.2)

/-- Parse the remaining `, int`* `]` portion of a JSON integer array;
`fuel` dominates the input length so the recursion terminates. -/
def parseArrayRest (fuel : Nat) (l : List Char) (acc : List Int) :
    Option (List Int × List Char) :=
  match fuel with
  | 0 => none
  | fuel + 1 =>
    match (l.dropWhile jsonWs) with
    | ']' :: r => some (acc.reverse, r)
    | ',' :: r =>
      match parseIntTok (r.dropWhile jsonWs) with
      | none => none
      | some (n, r') => parseArrayRest fuel r' (n :: acc)
    | _ => none

/-- Parse a whole JSON array of integers, requiring only whitespace after it
(`json.Unmarshal` rejects trailing garbage). -/
def parseIntArray (l : List Char) : Option (List Int) :=
  match l.dropWhile jsonWs with
  | '[' :: r =>
    let afterOpen := r.dropWhile jsonWs
    match afterOpen with
    | ']' :: r' => if (r'.dropWhile jsonWs).isEmpty then some [] else none
    | _ =>
      match parseIntTok afterOpen with
      | none => none
      | some (n, r') =>
        match parseArrayRest (r'.length + 1) r' [n] with
        | none => none
        | some (ns, rest) => if (rest.dropWhile jsonWs).isEmpty then some ns else none
  | _ => none

/-- Source `Pruner.parsePruningResponse` from `pruner.go`: trim whitespace, strip an
optional leading ```` ```json ```` or ```` ``` ```` fence and an optional
trailing ```` ``` ```` fence, trim again, then decode a JSON integer array. -/
def parsePruningResponse (response : String) : Option (List Int) :=
  let l := trimChars response.data
  let l := stripLead "```json".data l
  let l := stripLead "```".data l
  let l := stripTail "```".data l
  let l := trimChars l
  parseIntArray l

/-- Source `Pruner.removeMessagesByIndices` from `pruner.go`: Go computes the
result's capacity as `len(Messages) - len(indices)` and `make` panics when
that is negative (`none` here); otherwise the loop keeps, in order, every
message whose position is not listed. -/
def removeMessagesByIndices (indices : List Int) (msgs : List Message) :
    Option (List Message) :=
  if (msgs.length : Int) - (indices.length : Int) < 0 then none
  else
    some ((msgs.enum.foldl
      (fun acc p => if (p.1 : Int) ∈ indices then acc else acc ++ [p.2]) []))

/-- Source `Pruner.pruneWithAI` from `pruner.go`. The delegated call is an oracle:
`none` is a transport failure; a returned string is then parsed, a non-empty
index list is applied and the metadata recomputed, an empty one changes
nothing; both error paths return before any mutation. -/
def pruneWithAI (s : Store) (resp : Option String) : PruneResult :=
  match resp with
  | none => .fail
  | some r =>
    match parsePruningResponse r with
    | none => .fail
    | some indices =>
      if indices.length > 0 then
        match removeMessagesByIndices indices s.messages with
        | none => .panic
        | some msgs =>
          .ok { s with
                messages := msgs
                metadata :=
                  { totalMessages := msgs.length
                    totalTokensEstimate := tokensOfMessages msgs
                    pruneCount := s.metadata.pruneCount + 1 } }
      else .ok s

/-- Source `Pruner.Prune` from `pruner.go`: no-op unless `ShouldPrune`; adaptive
attempt when a client is present and `canUseAIPruning`, falling back to
`pruneHard` when the attempt returns an error; `pruneHard` otherwise. -/
def prune (lim : PruningLimits) (s : Store) (now : Int) (clientPresent : Bool)
    (resp : Option String) : PruneResult :=
  if ¬ (shouldPrune lim s now).1 then .ok s
  else if clientPresent && canUseAIPruning lim s then
    match pruneWithAI s resp with
    | .fail => pruneHard lim s
    | r => r
  else pruneHard lim s

/-- The emergency trigger of `Manager.checkEmergencyPrune`:
`tokens > emergencyTokens || messages > emergencyMessages` with the
ceilings `37500` and `150`. -/
def emergencyTriggered (tokens messages : Int) : Bool :=
  tokens > 37500 || messages > 150

/-- The cache-shedding step of `Manager.checkEmergencyPrune`: with a cache
present whose estimate exceeds half the token total, clear it. -/
def shedCache (s : Store) : Store :=
  match s.analysisCache with
  | some c =>
    if (cacheTokens c : Int) > (s.estimateTokens : Int) / 2 then s.clearAnalysis
    else s
  | none => s

/-- Source `Manager.checkEmergencyPrune` from `manager.go`: on the emergency
trigger, first drop the analysis cache when its estimate exceeds half the
current token total, then re-check with recomputed tokens (the message
count variable is not recomputed) and hard-prune with the default limits if
still triggered. -/
def checkEmergencyPrune (s : Store) : PruneResult :=
  if emergencyTriggered s.estimateTokens s.messages.length then
    let s1 := shedCache s
    if emergencyTriggered s1.estimateTokens s.messages.length then
      pruneHard defaultPruningLimits s1
    else .ok s1
  else .ok s

/-- Go `strings.ToLower` as a character-wise map (Go applies the Unicode
lowercase mapping; on the ASCII content relevant here the two agree). -/
def toLowerStr (s : String) : String :=
  String.mk (s.data.map Char.toLower)

/-- Source `Pruner.ShouldPreserve` from `pruner.go`: last-4 positions, a
triple-backtick fence, or a keyword in the lowercased content; the keyword
list is `{"analysis", "file tree", "README", "structure", "architecture"}`
exactly as written in the source. -/
def shouldPreserve (s : Store) (msg : Message) (index : Int) : Bool :=
  if index ≥ (s.messages.length : Int) - 4 then true
  else if strContains msg.content "```" then true
  else
    let content := toLowerStr msg.content
    ["analysis", "file tree", "README", "structure", "architecture"].any
      fun keyword => strContains content keyword

/-- Modelled from the spec (for comparison with `shouldPreserve`): "true if
`index` is within the last 4 positions; true if content contains a
triple-backtick fence; true if lowercase content contains any of
`{analysis, file tree, readme, structure, architecture}`; false otherwise." -/
def specPreserve (total : Nat) (msg : Message) (index : Int) : Bool :=
  index ≥ (total : Int) - 4 || strContains msg.content "```" ||
    (["analysis", "file tree", "readme", "structure", "architecture"].any
      fun keyword => strContains (toLowerStr msg.content) keyword)

/-- The persistence invariant of the spec: metadata counters reflect the
messages and the estimator. -/
def StoreInv (s : Store) : Prop :=
  s.metadata.totalMessages = s.messages.length ∧
    s.metadata.totalTokensEstimate = s.estimateTokens

instance (s : Store) : Decidable (StoreInv s) := by
  unfold StoreInv
  infer_instance

/-- A string of `n` ASCII `a`s, for concrete oversized inputs. -/
def bigA (n : Nat) : String :=
  String.mk (List.replicate n 'a')

theorem tokensOfMessages_foldl (l : List Message) (n : Nat) :
    l.foldl (fun total m => total + messageTokens m) n =
      n + (l.map messageTokens).sum := by
  induction l generalizing n with
  | nil => simp
  | cons m rest ih => simp [ih, Nat.add_assoc]

theorem tokensOfMessages_eq_sum (l : List Message) :
    tokensOfMessages l = (l.map messageTokens).sum := by
  simpa using tokensOfMessages_foldl l 0

theorem tokensOfMessages_replicate (k : Nat) (m : Message) :
    tokensOfMessages (List.replicate k m) = k * messageTokens m := by
  simp [tokensOfMessages_eq_sum]

theorem utf8Len_replicate (n : Nat) (c : Char) :
    String.utf8Len (List.replicate n c) = n * c.utf8Size := by
  induction n with
  | zero => simp
  | succ k ih => simp [List.replicate_succ, ih, Nat.succ_mul, Nat.add_comm]

theorem bigA_utf8ByteSize (n : Nat) : (bigA n).utf8ByteSize = n := by
  have h : ('a').utf8Size = 1 := by decide
  simp [bigA, utf8Len_replicate, h]

theorem estimateTokens_clearAnalysis (s : Store) :
    s.clearAnalysis.estimateTokens = s.estimateTokens := rfl

theorem estimateTokens_setAnalysis (s : Store) (c : AnalysisCache) (now : Int) :
    (s.setAnalysis c now).estimateTokens = s.estimateTokens := rfl

/-- Every `.ok` result of `pruneHard` is either the untouched store (the two
no-op returns) or the rebuilt store with freshly recomputed counters and an
incremented prune count; the analysis fields are never touched. -/
theorem pruneHard_ok (lim : PruningLimits) (s t : Store)
    (h : pruneHard lim s = .ok t) :
    (t = s ∨
      (t.metadata.totalMessages = t.messages.length ∧
        t.metadata.totalTokensEstimate = tokensOfMessages t.messages ∧
        t.metadata.pruneCount = s.metadata.pruneCount + 1)) ∧
    t.analysisCache = s.analysisCache ∧ t.lastAnalysisAt = s.lastAnalysisAt := by
  simp only [pruneHard] at h
  split at h
  · injection h with h'
    subst h'
    exact ⟨Or.inl rfl, rfl, rfl⟩
  · split at h
    · injection h with h'
      subst h'
      exact ⟨Or.inl rfl, rfl, rfl⟩
    · split at h
      · simp at h
      · injection h with h'
        subst h'
        exact ⟨Or.inr ⟨rfl, rfl, rfl⟩, rfl, rfl⟩

theorem pruneHard_ne_fail (lim : PruningLimits) (s : Store) :
    pruneHard lim s ≠ .fail := by
  simp only [pruneHard]
  split
  · simp
  · split
    · simp
    · split <;> simp

/-- Every `.ok` result of `pruneWithAI` is either the untouched store (the
empty-index-list response) or the rebuilt store with recomputed counters and
an incremented prune count; the analysis fields are never touched. -/
theorem pruneWithAI_ok (s t : Store) (resp : Option String)
    (h : pruneWithAI s resp = .ok t) :
    (t = s ∨
      (t.metadata.totalMessages = t.messages.length ∧
        t.metadata.totalTokensEstimate = tokensOfMessages t.messages ∧
        t.metadata.pruneCount = s.metadata.pruneCount + 1)) ∧
    t.analysisCache = s.analysisCache ∧ t.lastAnalysisAt = s.lastAnalysisAt := by
  rcases resp with _ | r
  · simp [pruneWithAI] at h
  · rcases hp : parsePruningResponse r with _ | indices
    · simp only [pruneWithAI, hp] at h
      exact absurd h (by simp)
    · simp only [pruneWithAI, hp] at h
      split at h
      · rcases hr : removeMessagesByIndices indices s.messages with _ | msgs
        · rw [hr] at h
          simp at h
        · rw [hr] at h
          injection h with h'
          subst h'
          exact ⟨Or.inr ⟨rfl, rfl, rfl⟩, rfl, rfl⟩
      · injection h with h'
        subst h'
        exact ⟨Or.inl rfl, rfl, rfl⟩

/-- The adaptive attempt fails: the delegated call returned no response
(transport failure) or a response that does not parse as an index array. -/
def aiAttemptFails (resp : Option String) : Bool :=
  match resp with
  | none => true
  | some r => (parsePruningResponse r).isNone

/-- Function `pruneWithAI` returns an error exactly on a missing response or an
unparseable one, and in both cases before touching the store. -/
theorem pruneWithAI_fail_of_attempt_fails (s : Store) (resp : Option String)
    (h : aiAttemptFails resp = true) :
    pruneWithAI s resp = .fail := by
  simp only [aiAttemptFails] at h
  rcases resp with _ | r
  · rfl
  · simp only [Option.isNone_iff_eq_none] at h
    simp [pruneWithAI, h]

/-- C7: `AddMessage` stores the content verbatim — the append performs no
per-message cap, no truncation and appends no "[Content truncated …]"
marker, for content of any size (contradicting the repository's own
`TestMessageSizeLimits`, which feeds `AddMessage` a string of length
`MaxMessageLength + 1000` and expects a truncated stored content carrying
the marker — `MaxMessageLength` does not even exist in the sources). -/
theorem addMessage_no_truncation (s : Store) (role content : String) (now : Int) :
    (s.addMessage role content now).messages = s.messages ++ [⟨role, content, now⟩] :=
  rfl

/-- A store of five plain one-character user messages. -/
def c8Store : Store :=
  ⟨List.replicate 5 ⟨"user", "x", 0⟩, none, none, ⟨5, 0, 0⟩⟩

/-- A message whose content mentions the readme in lowercase. -/
def c8Msg : Message :=
  ⟨"user", "see the readme file", 0⟩

/-- C8: at a message mentioning "readme" (not in the last 4 positions, no
fence, no other keyword), `ShouldPreserve` returns `false` although the
claimed characterization returns `true`: the source compares the lowercased
content against the literal keyword `"README"`, which can never occur in a
lowercased string. -/
theorem shouldPreserve_readme_never_matches :
    shouldPreserve c8Store c8Msg 0 = false ∧
      specPreserve c8Store.messages.length c8Msg 0 = true := by
  decide

/-- C9: the size estimate reads only the message sequence, so two stores
with equal messages give equal `EstimateTokens`, equal `ShouldPrune`
results, and an equal emergency size/count trigger, whatever their analysis
snapshots are. -/
theorem estimate_independent_of_snapshot (s₁ s₂ : Store) (lim : PruningLimits)
    (now : Int) (h : s₁.messages = s₂.messages) :
    s₁.estimateTokens = s₂.estimateTokens ∧
      shouldPrune lim s₁ now = shouldPrune lim s₂ now ∧
      emergencyTriggered s₁.estimateTokens s₁.messages.length =
        emergencyTriggered s₂.estimateTokens s₂.messages.length := by
  have he : s₁.estimateTokens = s₂.estimateTokens := by
    simp [Store.estimateTokens, h]
  refine ⟨he, ?_, ?_⟩
  · simp only [shouldPrune, h, he]
  · rw [h, he]

theorem estimate_independent_of_snapshot_witness :
    (⟨[⟨"user", "hello", 0⟩], none, none, ⟨1, 1, 0⟩⟩ : Store).messages =
        (⟨[⟨"user", "hello", 0⟩], some ⟨"tree", "docs", ["go.mod"]⟩, some 7,
          ⟨1, 1, 3⟩⟩ : Store).messages ∧
      ((⟨[⟨"user", "hello", 0⟩], none, none, ⟨1, 1, 0⟩⟩ : Store).estimateTokens =
          (⟨[⟨"user", "hello", 0⟩], some ⟨"tree", "docs", ["go.mod"]⟩, some 7,
            ⟨1, 1, 3⟩⟩ : Store).estimateTokens ∧
        shouldPrune defaultPruningLimits
            ⟨[⟨"user", "hello", 0⟩], none, none, ⟨1, 1, 0⟩⟩ 0 =
          shouldPrune defaultPruningLimits
            ⟨[⟨"user", "hello", 0⟩], some ⟨"tree", "docs", ["go.mod"]⟩, some 7,
              ⟨1, 1, 3⟩⟩ 0 ∧
        emergencyTriggered
            (⟨[⟨"user", "hello", 0⟩], none, none, ⟨1, 1, 0⟩⟩ : Store).estimateTokens
            (⟨[⟨"user", "hello", 0⟩], none, none, ⟨1, 1, 0⟩⟩ : Store).messages.length =
          emergencyTriggered
            (⟨[⟨"user", "hello", 0⟩], some ⟨"tree", "docs", ["go.mod"]⟩, some 7,
              ⟨1, 1, 3⟩⟩ : Store).estimateTokens
            (⟨[⟨"user", "hello", 0⟩], some ⟨"tree", "docs", ["go.mod"]⟩, some 7,
              ⟨1, 1, 3⟩⟩ : Store).messages.length) :=
  ⟨rfl, estimate_independent_of_snapshot _ _ defaultPruningLimits 0 rfl⟩

/-- A store of 24 leading system messages followed by 4 user messages. -/
def c2Store : Store :=
  ⟨List.replicate 24 ⟨"system", "s", 0⟩ ++ List.replicate 4 ⟨"user", "u", 0⟩,
    none, none, ⟨28, 0, 0⟩⟩

/-- C2: on a 28-message store whose first 24 messages are `system`-role,
`pruneHard` succeeds but leaves 0 messages — fewer than the 4 its own
"keep last 4 messages minimum" cap promises — because the leading system
run is dropped in addition to the computed excess. -/
theorem pruneHard_below_four_on_system_heavy_store :
    c2Store.messages.length = 28 ∧
      pruneHard defaultPruningLimits c2Store = .ok ⟨[], none, none, ⟨0, 0, 1⟩⟩ := by
  decide

/-- A store of one leading system message followed by 25 user messages. -/
def c3Store : Store :=
  ⟨⟨"system", "sys", 0⟩ :: List.replicate 25 ⟨"user", "u", 0⟩,
    none, none, ⟨26, 0, 0⟩⟩

/-- C3: on a 26-message store with one leading system message, the excess
is 2, and the claim expects the system message to be kept followed by the
23 user messages that survive dropping the next 2; `pruneHard` instead
returns only the 23 user messages — the leading system run is removed, not
kept. -/
theorem pruneHard_drops_leading_system_run :
    pruneHard defaultPruningLimits c3Store =
        .ok ⟨List.replicate 23 ⟨"user", "u", 0⟩, none, none, ⟨23, 0, 1⟩⟩ ∧
      (List.replicate 23 (⟨"user", "u", 0⟩ : Message) ≠
        ⟨"system", "sys", 0⟩ :: List.replicate 23 ⟨"user", "u", 0⟩) := by
  decide

/-- The claimed characterization of index removal: keep, in order, exactly
the messages whose position is not listed (out-of-range entries thus have
no effect). -/
def keptMessages (indices : List Int) (msgs : List Message) : List Message :=
  (msgs.enum.filter fun p => decide ((p.1 : Int) ∉ indices)).map Prod.snd

theorem removeFold_eq_filter (indices : List Int) (l : List (Nat × Message))
    (acc : List Message) :
    l.foldl (fun acc p => if (p.1 : Int) ∈ indices then acc else acc ++ [p.2]) acc =
      acc ++ (l.filter fun p => decide ((p.1 : Int) ∉ indices)).map Prod.snd := by
  induction l generalizing acc with
  | nil => simp
  | cons p rest ih =>
    by_cases hm : (p.1 : Int) ∈ indices
    · simp [hm, ih]
    · simp [hm, ih]

/-- C10: `removeMessagesByIndices` returns a result exactly when the index
list is no longer than the message list (otherwise the Go `make` capacity
`len(Messages) - len(indices)` is negative and panics); under that
precondition it keeps, in original order, exactly the messages at positions
not listed, ignoring out-of-range entries. -/
theorem removeMessagesByIndices_total_exact (indices : List Int)
    (msgs : List Message) :
    ((removeMessagesByIndices indices msgs).isSome ↔
        indices.length ≤ msgs.length) ∧
      (indices.length ≤ msgs.length →
        removeMessagesByIndices indices msgs = some (keptMessages indices msgs) ∧
          (keptMessages indices msgs).Sublist msgs) := by
  constructor
  · simp only [removeMessagesByIndices]
    split
    · simpa using by omega
    · simpa using by omega
  · intro h
    have hguard : ¬ ((msgs.length : Int) - (indices.length : Int) < 0) := by omega
    constructor
    · simp only [removeMessagesByIndices, if_neg hguard, keptMessages]
      rw [removeFold_eq_filter]
      simp
    · have hsub : (msgs.enum.filter fun p => decide ((p.1 : Int) ∉ indices)).Sublist
          msgs.enum := List.filter_sublist _
      have := hsub.map Prod.snd
      rw [List.enum_map_snd] at this
      exact this

/-- Ten distinct one-character user messages. -/
def c10Msgs : List Message :=
  (List.range 10).map fun i => ⟨"user", toString i, 0⟩

theorem removeMessagesByIndices_total_exact_witness :
    ([0, 2, 4, 6, 8] : List Int).length ≤ c10Msgs.length ∧
      (removeMessagesByIndices [0, 2, 4, 6, 8] c10Msgs =
          some (keptMessages [0, 2, 4, 6, 8] c10Msgs) ∧
        (keptMessages [0, 2, 4, 6, 8] c10Msgs).Sublist c10Msgs) :=
  ⟨by decide,
    (removeMessagesByIndices_total_exact [0, 2, 4, 6, 8] c10Msgs).2 (by decide)⟩

/-- A successful `Prune` is the untouched store (`ShouldPrune` false is
impossible here but included: the first return), the result of a successful
adaptive attempt, or the result of `pruneHard`. -/
theorem prune_ok_cases (lim : PruningLimits) (s t : Store) (now : Int)
    (cp : Bool) (resp : Option String)
    (h : prune lim s now cp resp = .ok t) :
    t = s ∨ pruneWithAI s resp = .ok t ∨ pruneHard lim s = .ok t := by
  simp only [prune] at h
  split at h
  · injection h with h'
    exact Or.inl h'.symm
  · split at h
    · rcases hw : pruneWithAI s resp with t' | _ | _ <;> rw [hw] at h
      · have ht : t' = t := by simpa using h
        subst ht
        exact Or.inr (Or.inl rfl)
      · exact Or.inr (Or.inr (by simpa using h))
      · simp at h
    · exact Or.inr (Or.inr h)

/-- A store of 40 one-character user messages. -/
def c6Store : Store :=
  ⟨List.replicate 40 ⟨"user", "t", 0⟩, none, none, ⟨40, 0, 0⟩⟩

/-- C6: whenever `Prune` attempts the adaptive strategy (client present,
`canUseAIPruning` true, `ShouldPrune` true) and the attempt fails — no
response, or a response that does not parse as an index array — the call
returns exactly the deterministic `pruneHard` result, and `pruneHard` never
returns an error, so the failure is not propagated. -/
theorem prune_falls_back_to_hard (lim : PruningLimits) (s : Store) (now : Int)
    (resp : Option String)
    (h1 : (shouldPrune lim s now).1 = true)
    (h2 : canUseAIPruning lim s = true)
    (h3 : aiAttemptFails resp = true) :
    prune lim s now true resp = pruneHard lim s ∧ pruneHard lim s ≠ .fail := by
  have hfail := pruneWithAI_fail_of_attempt_fails s resp h3
  refine ⟨?_, pruneHard_ne_fail lim s⟩
  simp [prune, h1, h2, hfail]

theorem prune_falls_back_to_hard_witness :
    ((shouldPrune defaultPruningLimits c6Store 0).1 = true ∧
        canUseAIPruning defaultPruningLimits c6Store = true ∧
        aiAttemptFails (some "not json") = true) ∧
      (prune defaultPruningLimits c6Store 0 true (some "not json") =
          pruneHard defaultPruningLimits c6Store ∧
        pruneHard defaultPruningLimits c6Store ≠ .fail) :=
  ⟨⟨by decide, by decide, by decide⟩,
    prune_falls_back_to_hard defaultPruningLimits c6Store 0 (some "not json")
      (by decide) (by decide) (by decide)⟩

/-- Five short user messages, all timestamped 0. -/
def c4Store : Store :=
  ⟨List.replicate 5 ⟨"user", "q", 0⟩, none, none, ⟨5, 0, 0⟩⟩

/-- An instant just past the 30-day age ceiling for timestamp 0. -/
def c4Now : Int :=
  30 * 24 * 3600 * 1000000000 + 1

/-- C4 counterexample: with five over-age messages, `ShouldPrune` is true
(hard age limit) but `Prune` succeeds via the deterministic path as a no-op
(5 ≤ 24 target), leaving `PruneCount` at 0 instead of increasing it by 1. -/
theorem prune_succeeds_without_counting :
    (shouldPrune defaultPruningLimits c4Store c4Now).1 = true ∧
      prune defaultPruningLimits c4Store c4Now false none = .ok c4Store ∧
      c4Store.metadata.pruneCount = 0 := by
  decide

/-- C4 as amended: for every store on which `ShouldPrune()` is true, a
successful `Prune()` either leaves the store entirely unchanged (the
deterministic path with message count at or below the effective removal
threshold, or an adaptive reply carrying an empty index list) or leaves
`Metadata.TotalMessages` equal to `len(Messages)` and increases
`Metadata.PruneCount` by exactly 1. -/
theorem prune_ok_counts_or_noop (lim : PruningLimits) (s t : Store) (now : Int)
    (clientPresent : Bool) (resp : Option String)
    (h1 : (shouldPrune lim s now).1 = true)
    (h2 : prune lim s now clientPresent resp = .ok t) :
    t = s ∨
      (t.metadata.totalMessages = t.messages.length ∧
        t.metadata.pruneCount = s.metadata.pruneCount + 1) := by
  rcases prune_ok_cases lim s t now clientPresent resp h2 with he | hw | hh
  · exact Or.inl he
  · rcases (pruneWithAI_ok s t resp hw).1 with he | hup
    · exact Or.inl he
    · exact Or.inr ⟨hup.1, hup.2.2⟩
  · rcases (pruneHard_ok lim s t hh).1 with he | hup
    · exact Or.inl he
    · exact Or.inr ⟨hup.1, hup.2.2⟩

/-- Forty short user messages with content "w". -/
def c4bStore : Store :=
  ⟨List.replicate 40 ⟨"user", "w", 0⟩, none, none, ⟨40, 0, 0⟩⟩

theorem prune_ok_counts_or_noop_witness :
    ((shouldPrune defaultPruningLimits c4bStore 0).1 = true ∧
        prune defaultPruningLimits c4bStore 0 false none =
          .ok ⟨List.replicate 24 ⟨"user", "w", 0⟩, none, none, ⟨24, 0, 1⟩⟩) ∧
      ((⟨List.replicate 24 ⟨"user", "w", 0⟩, none, none, ⟨24, 0, 1⟩⟩ : Store) = c4bStore ∨
        ((⟨List.replicate 24 ⟨"user", "w", 0⟩, none, none,
            ⟨24, 0, 1⟩⟩ : Store).metadata.totalMessages =
            (⟨List.replicate 24 ⟨"user", "w", 0⟩, none, none,
              ⟨24, 0, 1⟩⟩ : Store).messages.length ∧
          (⟨List.replicate 24 ⟨"user", "w", 0⟩, none, none,
            ⟨24, 0, 1⟩⟩ : Store).metadata.pruneCount =
            c4bStore.metadata.pruneCount + 1)) :=
  ⟨⟨by decide, by decide⟩,
    prune_ok_counts_or_noop defaultPruningLimits c4bStore _ 0 false none
      (by decide) (by decide)⟩

theorem shedCache_inv (s : Store) (h : StoreInv s) : StoreInv (shedCache s) := by
  unfold shedCache
  split
  · split
    · exact h
    · exact h
  · exact h

/-- C5: every persisted mutation keeps the metadata counters consistent:
appending a message, a reset, caching a directory analysis, a deterministic
prune, a successful adaptive prune, any successful `Prune`, and the
emergency guard all re-establish `Metadata.TotalMessages == len(Messages)`
and `Metadata.TotalTokensEstimate == EstimateTokens` (given they held
before, for the steps that may leave the store untouched). -/
theorem mutations_preserve_metadata_invariant (s t : Store) (lim : PruningLimits)
    (role content : String) (cache : AnalysisCache) (now : Int)
    (clientPresent : Bool) (resp : Option String)
    (h : StoreInv s) :
    StoreInv (s.addMessage role content now) ∧
      StoreInv s.reset ∧
      StoreInv (s.setAnalysis cache now) ∧
      (pruneHard lim s = .ok t → StoreInv t) ∧
      (pruneWithAI s resp = .ok t → StoreInv t) ∧
      (prune lim s now clientPresent resp = .ok t → StoreInv t) ∧
      (checkEmergencyPrune s = .ok t → StoreInv t) := by
  have hhard : ∀ (lim' : PruningLimits) (u v : Store), StoreInv u →
      pruneHard lim' u = .ok v → StoreInv v := by
    intro lim' u v hu hp
    rcases (pruneHard_ok lim' u v hp).1 with he | hup
    · exact he ▸ hu
    · exact ⟨hup.1, hup.2.1⟩
  have hai : ∀ u v : Store, StoreInv u → pruneWithAI u resp = .ok v → StoreInv v := by
    intro u v hu hp
    rcases (pruneWithAI_ok u v resp hp).1 with he | hup
    · exact he ▸ hu
    · exact ⟨hup.1, hup.2.1⟩
  refine ⟨⟨rfl, rfl⟩, ⟨rfl, rfl⟩, h, hhard lim s t h, hai s t h, ?_, ?_⟩
  · intro hp
    rcases prune_ok_cases lim s t now clientPresent resp hp with he | hw | hh
    · exact he ▸ h
    · exact hai s t h hw
    · exact hhard lim s t h hh
  · intro hp
    simp only [checkEmergencyPrune] at hp
    split at hp
    · split at hp
      · exact hhard defaultPruningLimits (shedCache s) t (shedCache_inv s h) hp
      · injection hp with h'
        exact h' ▸ shedCache_inv s h
    · injection hp with h'
      exact h' ▸ h

theorem mutations_preserve_metadata_invariant_witness :
    StoreInv (⟨[⟨"user", "hi", 0⟩], none, none, ⟨1, 0, 2⟩⟩ : Store) ∧
      (StoreInv ((⟨[⟨"user", "hi", 0⟩], none, none, ⟨1, 0, 2⟩⟩ : Store).addMessage
          "assistant" "ok" 9) ∧
        StoreInv (⟨[⟨"user", "hi", 0⟩], none, none, ⟨1, 0, 2⟩⟩ : Store).reset ∧
        StoreInv ((⟨[⟨"user", "hi", 0⟩], none, none, ⟨1, 0, 2⟩⟩ : Store).setAnalysis
          ⟨"tree", "", []⟩ 9) ∧
        (pruneHard defaultPruningLimits ⟨[⟨"user", "hi", 0⟩], none, none, ⟨1, 0, 2⟩⟩ =
            .ok ⟨[⟨"user", "hi", 0⟩], none, none, ⟨1, 0, 2⟩⟩ →
          StoreInv (⟨[⟨"user", "hi", 0⟩], none, none, ⟨1, 0, 2⟩⟩ : Store)) ∧
        (pruneWithAI ⟨[⟨"user", "hi", 0⟩], none, none, ⟨1, 0, 2⟩⟩ (some "[]") =
            .ok ⟨[⟨"user", "hi", 0⟩], none, none, ⟨1, 0, 2⟩⟩ →
          StoreInv (⟨[⟨"user", "hi", 0⟩], none, none, ⟨1, 0, 2⟩⟩ : Store)) ∧
        (prune defaultPruningLimits ⟨[⟨"user", "hi", 0⟩], none, none, ⟨1, 0, 2⟩⟩ 9
            false (some "[]") =
            .ok ⟨[⟨"user", "hi", 0⟩], none, none, ⟨1, 0, 2⟩⟩ →
          StoreInv (⟨[⟨"user", "hi", 0⟩], none, none, ⟨1, 0, 2⟩⟩ : Store)) ∧
        (checkEmergencyPrune ⟨[⟨"user", "hi", 0⟩], none, none, ⟨1, 0, 2⟩⟩ =
            .ok ⟨[⟨"user", "hi", 0⟩], none, none, ⟨1, 0, 2⟩⟩ →
          StoreInv (⟨[⟨"user", "hi", 0⟩], none, none, ⟨1, 0, 2⟩⟩ : Store))) :=
  ⟨by decide,
    mutations_preserve_metadata_invariant _ _ defaultPruningLimits "assistant" "ok"
      ⟨"tree", "", []⟩ 9 false (some "[]") (by decide)⟩

/-- A 200000-byte file tree rendering and nothing else. -/
def cxCache : AnalysisCache :=
  ⟨bigA 200000, "", []⟩

/-- Ten 20000-byte user messages (50000 token-units) plus the oversized
analysis snapshot. -/
def cxStore : Store :=
  ⟨List.replicate 10 ⟨"user", bigA 20000, 0⟩, some cxCache, some 0, ⟨10, 50000, 0⟩⟩

theorem cxStore_estimate : cxStore.estimateTokens = 50000 := by
  show tokensOfMessages (List.replicate 10 ⟨"user", bigA 20000, 0⟩) = 50000
  rw [tokensOfMessages_replicate]
  simp [messageTokens, bigA_utf8ByteSize]

theorem cacheTokens_def (ft rd : String) (cfg : List String) :
    cacheTokens ⟨ft, rd, cfg⟩ =
      2 * ft.utf8ByteSize / 7 + 2 * rd.utf8ByteSize / 7 + 2 * cfg.length :=
  rfl

theorem cxCache_tokens : cacheTokens cxCache = 57142 := by
  have h := cacheTokens_def (bigA 200000) "" []
  rw [bigA_utf8ByteSize] at h
  exact h.trans (by rfl)

/-- Under the C1 hypotheses (snapshot present, total over the emergency
ceiling, snapshot estimate over half the total) the guard always runs the
deterministic pruner on the snapshot-cleared store: clearing the snapshot
cannot lower the estimate, so the re-check always fires. -/
theorem checkEmergencyPrune_shed_eq (s : Store) (c : AnalysisCache)
    (hc : s.analysisCache = some c)
    (ht : (s.estimateTokens : Int) > 37500)
    (hhalf : (cacheTokens c : Int) > (s.estimateTokens : Int) / 2) :
    checkEmergencyPrune s = pruneHard defaultPruningLimits s.clearAnalysis := by
  have htrig : emergencyTriggered s.estimateTokens s.messages.length = true := by
    simp only [emergencyTriggered, Bool.or_eq_true, decide_eq_true_eq]
    exact Or.inl ht
  have hshed : shedCache s = s.clearAnalysis := by
    simp only [shedCache, hc]
    rw [if_pos hhalf]
  have htrig2 : emergencyTriggered s.clearAnalysis.estimateTokens
      s.messages.length = true := htrig
  simp only [checkEmergencyPrune, htrig, if_true, hshed, htrig2]

/-- C1 counterexample: a store of 10 messages totalling 50000 units with a
57142-unit snapshot satisfies the claim's hypotheses, and the guard clears
the snapshot — but the size estimator never counted the snapshot, so the
total stays 50000 (> 37500), and the deterministic pruning step is a no-op
at 10 ≤ 24 messages: the total is neither brought to or below the ceiling
nor reduced at all. -/
theorem emergency_guard_counterexample :
    cxStore.analysisCache = some cxCache ∧
      (cxStore.estimateTokens : Int) > 37500 ∧
      (cacheTokens cxCache : Int) > (cxStore.estimateTokens : Int) / 2 ∧
      checkEmergencyPrune cxStore = .ok cxStore.clearAnalysis ∧
      cxStore.clearAnalysis.analysisCache = none ∧
      cxStore.clearAnalysis.estimateTokens = cxStore.estimateTokens ∧
      cxStore.clearAnalysis.messages = cxStore.messages ∧
      ¬ (cxStore.clearAnalysis.estimateTokens ≤ 37500) := by
  have h1 := cxStore_estimate
  have h2 := cxCache_tokens
  have hgt : (cxStore.estimateTokens : Int) > 37500 := by
    rw [h1]
    decide
  have hhalf : (cacheTokens cxCache : Int) > (cxStore.estimateTokens : Int) / 2 := by
    rw [h1, h2]
    decide
  have hlen : cxStore.clearAnalysis.messages.length = 10 := by
    simp [cxStore, Store.clearAnalysis]
  have hnoop : pruneHard defaultPruningLimits cxStore.clearAnalysis =
      .ok cxStore.clearAnalysis := by
    simp [pruneHard, hlen, defaultPruningLimits]
  refine ⟨rfl, hgt, hhalf,
    (checkEmergencyPrune_shed_eq cxStore cxCache rfl hgt hhalf).trans hnoop,
    rfl, rfl, rfl, ?_⟩
  rw [estimateTokens_clearAnalysis, h1]
  omega

/-- C1 as amended: for every store whose analysis-snapshot size-estimate
exceeds 50% of a total size-estimate that itself exceeds the emergency
ceiling (37500 units), the emergency guard clears the snapshot entirely
(including its last-refreshed marker) and then — because the size estimator
ignores the snapshot, so the total is unchanged and still over the ceiling —
always hands the cleared store to deterministic message pruning; the call's
result is exactly `pruneHard` of the cleared store, whose success leaves the
snapshot cleared, but the final total need not be at or below the ceiling
nor smaller than before. -/
theorem emergency_clears_snapshot_then_hard_prunes (s t : Store)
    (c : AnalysisCache)
    (hc : s.analysisCache = some c)
    (ht : (s.estimateTokens : Int) > 37500)
    (hhalf : (cacheTokens c : Int) > (s.estimateTokens : Int) / 2) :
    checkEmergencyPrune s = pruneHard defaultPruningLimits s.clearAnalysis ∧
      s.clearAnalysis.analysisCache = none ∧
      s.clearAnalysis.lastAnalysisAt = none ∧
      s.clearAnalysis.estimateTokens = s.estimateTokens ∧
      (pruneHard defaultPruningLimits s.clearAnalysis = .ok t →
        t.analysisCache = none ∧ t.lastAnalysisAt = none) := by
  refine ⟨checkEmergencyPrune_shed_eq s c hc ht hhalf, rfl, rfl, rfl, ?_⟩
  intro hp
  have hfields := pruneHard_ok defaultPruningLimits s.clearAnalysis t hp
  exact ⟨hfields.2.1.trans rfl, hfields.2.2.trans rfl⟩

theorem emergency_clears_snapshot_then_hard_prunes_witness :
    (cxStore.analysisCache = some cxCache ∧
        (cxStore.estimateTokens : Int) > 37500 ∧
        (cacheTokens cxCache : Int) > (cxStore.estimateTokens : Int) / 2) ∧
      (checkEmergencyPrune cxStore =
          pruneHard defaultPruningLimits cxStore.clearAnalysis ∧
        cxStore.clearAnalysis.analysisCache = none ∧
        cxStore.clearAnalysis.lastAnalysisAt = none ∧
        cxStore.clearAnalysis.estimateTokens = cxStore.estimateTokens ∧
        (pruneHard defaultPruningLimits cxStore.clearAnalysis =
            .ok cxStore.clearAnalysis →
          cxStore.clearAnalysis.analysisCache = none ∧
            cxStore.clearAnalysis.lastAnalysisAt = none)) :=
  ⟨⟨rfl, by rw [cxStore_estimate]; decide,
      by rw [cxStore_estimate, cxCache_tokens]; decide⟩,
    emergency_clears_snapshot_then_hard_prunes cxStore cxStore.clearAnalysis
      cxCache rfl (by rw [cxStore_estimate]; decide)
      (by rw [cxStore_estimate, cxCache_tokens]; decide)⟩
